import Mathlib

/-!
Verification of the JobMateAI skill-matching core (src/backend/routers/job_scanner.py
and src/backend/utils/ai_client.py) against its natural-language specification.

The Python code is shallowly embedded:
* Python `str` becomes Lean `String` (ASCII case mapping, as the skill data is ASCII);
* Python `set` of strings becomes a duplicate-free Lean `List String` kept in
  insertion order (membership and cardinality agree with the Python set; CPython's
  hash iteration order is abstracted to insertion order);
* Python `dict` becomes an association list `List (String × _)` (keys unique);
* Python `float` scores become `ℚ`, with `round(x, 2)` modelled exactly as
  round-half-to-even at two decimals;
* fallible calls become `Except`.
-/

/-- Python whitespace test used by `str.split()` and `str.strip()`:
space, tab, newline, vertical tab, form feed, carriage return. -/
def isPyWsChar (c : Char) : Bool :=
  c.toNat == 32 || (Nat.ble 9 c.toNat && Nat.ble c.toNat 13)

/-- ASCII lowercasing of one character, modelling Python `str.lower()` on the
ASCII range the skill vocabulary uses. -/
def pyLowerChar (c : Char) : Char :=
  if 65 ≤ c.toNat ∧ c.toNat ≤ 90 then Char.ofNat (c.toNat + 32) else c

/-- ASCII uppercasing of one character, modelling Python `str.upper()` on ASCII. -/
def pyUpperChar (c : Char) : Char :=
  if 97 ≤ c.toNat ∧ c.toNat ≤ 122 then Char.ofNat (c.toNat - 32) else c

/-- ASCII letter test (Python `str.isalpha` restricted to ASCII, the "cased"
characters relevant to `str.title()` here). -/
def isAsciiAlphaChar (c : Char) : Bool :=
  (Nat.ble 65 c.toNat && Nat.ble c.toNat 90) || (Nat.ble 97 c.toNat && Nat.ble c.toNat 122)

/-- Lowercase a whole string (Python `str.lower()` on ASCII). -/
def pyLower (s : String) : String :=
  ⟨s.data.map pyLowerChar⟩

theorem char_toNat_ofNat_small {m : Nat} (h : m < 55296) : (Char.ofNat m).toNat = m := by
  have hv : m.isValidChar := Or.inl h
  simp only [Char.ofNat, hv, dite_true, Char.ofNatAux, Char.toNat, UInt32.ofNatCore]
  rfl

theorem pyLowerChar_toNat_of_upper {c : Char} (h : 65 ≤ c.toNat ∧ c.toNat ≤ 90) :
    (pyLowerChar c).toNat = c.toNat + 32 := by
  simp only [pyLowerChar, h, if_true, and_self, ite_true]
  exact char_toNat_ofNat_small (by omega)

theorem pyLowerChar_eq_self {c : Char} (h : ¬ (65 ≤ c.toNat ∧ c.toNat ≤ 90)) :
    pyLowerChar c = c := by
  simp only [pyLowerChar, h, ite_false]

theorem pyLowerChar_idem (c : Char) : pyLowerChar (pyLowerChar c) = pyLowerChar c := by
  by_cases h : 65 ≤ c.toNat ∧ c.toNat ≤ 90
  · have h2 : (pyLowerChar c).toNat = c.toNat + 32 := pyLowerChar_toNat_of_upper h
    exact pyLowerChar_eq_self (by omega)
  · rw [pyLowerChar_eq_self h, pyLowerChar_eq_self h]

theorem isPyWsChar_iff (c : Char) :
    isPyWsChar c = true ↔ (c.toNat = 32 ∨ (9 ≤ c.toNat ∧ c.toNat ≤ 13)) := by
  simp [isPyWsChar, Nat.ble_eq]

theorem isPyWsChar_pyLowerChar (c : Char) : isPyWsChar (pyLowerChar c) = isPyWsChar c := by
  by_cases h : 65 ≤ c.toNat ∧ c.toNat ≤ 90
  · have h2 : (pyLowerChar c).toNat = c.toNat + 32 := pyLowerChar_toNat_of_upper h
    have ha : ¬ (isPyWsChar (pyLowerChar c) = true) := by rw [isPyWsChar_iff, h2]; omega
    have hb : ¬ (isPyWsChar c = true) := by rw [isPyWsChar_iff]; omega
    simp only [Bool.not_eq_true] at ha hb
    rw [ha, hb]
  · rw [pyLowerChar_eq_self h]

/-- Accumulator pass splitting a character list into maximal runs of
non-whitespace characters (Python `str.split()` with no separator): `acc` holds
the current word reversed. -/
def pyWordsAux : List Char → List Char → List (List Char)
  | [], acc => if acc = [] then [] else [acc.reverse]
  | c :: cs, acc =>
    if isPyWsChar c then
      (if acc = [] then pyWordsAux cs [] else acc.reverse :: pyWordsAux cs [])
    else pyWordsAux cs (c :: acc)

/-- Words of a character list, as Python `str.split()` produces them: maximal
nonempty runs of non-whitespace. -/
def pyWords (cs : List Char) : List (List Char) :=
  pyWordsAux cs []

/-- Join words with single spaces (Python `' '.join(...)`). -/
def joinSpace : List (List Char) → List Char
  | [] => []
  | [w] => w
  | w :: ws => w ++ ' ' :: joinSpace ws

/-- Character-level core of skill normalization: lowercase, then collapse all
whitespace runs to single spaces and trim the ends, exactly as
`' '.join(skill.lower().strip().split())` does (`strip` is subsumed by `split`). -/
def charNorm (cs : List Char) : List Char :=
  joinSpace (pyWords (cs.map pyLowerChar))

/-- String form of `charNorm`: the normalized spelling of one skill. -/
def normWS (s : String) : String :=
  ⟨charNorm s.data⟩

/-- Set insertion for the Python-set model: append the element unless present. -/
def pyInsert (acc : List String) (x : String) : List String :=
  if x ∈ acc then acc else acc ++ [x]

/-- Deduplicate a list, keeping first occurrences (model of `list(set(x))`
construction order; the Python set's extension is the same). -/
def pydedup (l : List String) : List String :=
  l.foldl pyInsert []

/-- Embedding of `normalize_skills` (job_scanner.py lines 176-186): drop empty
entries, lowercase, collapse whitespace, deduplicate. The `isinstance(skill, str)`
guard is vacuous in this typed embedding. -/
def normalize_skills (skills : List String) : List String :=
  skills.foldl
    (fun acc skill =>
      if skill = "" then acc
      else
        let n := normWS skill
        if n = "" then acc else pyInsert acc n)
    []

/-- Round-half-to-even to an integer, the rounding Python's `round` uses. -/
def roundHalfEven (x : ℚ) : ℤ :=
  if x - ⌊x⌋ < 1 / 2 then ⌊x⌋
  else if 1 / 2 < x - ⌊x⌋ then ⌊x⌋ + 1
  else if ⌊x⌋ % 2 = 0 then ⌊x⌋ else ⌊x⌋ + 1

/-- Python `round(x, 2)` over the rational score model. -/
def pythonRound2 (x : ℚ) : ℚ :=
  (roundHalfEven (x * 100) : ℚ) / 100

/-- Lookup in the association-list model of a Python dict. -/
def alookup {α : Type} (d : List (String × α)) (k : String) : Option α :=
  (d.find? (fun p => p.1 = k)).map (fun p => p.2)

/-- Accumulation loop of `calculate_match_score` (job_scanner.py lines 222-241):
pool `(total_required, total_matched)` over the job's categories, skipping
categories whose required set is empty. -/
def match_totals (jobN cvN : List (String × List String)) : Nat × Nat :=
  jobN.foldl
    (fun acc p =>
      if p.2 = [] then acc
      else
        let cvs := (alookup cvN p.1).getD []
        (acc.1 + p.2.length, acc.2 + (p.2.filter (fun s => decide (s ∈ cvs))).length))
    (0, 0)

/-- Embedding of `calculate_match_score` (job_scanner.py lines 188-252). Dicts
are association lists; the `isinstance(skills, list)` guards are vacuous here
and a non-list/empty category normalizes to the empty set either way. -/
def calculate_match_score (job_skills cv_skills : List (String × List String)) : ℚ :=
  if job_skills = [] ∨ cv_skills = [] then 0
  else
    let jobN := job_skills.map (fun p => (p.1, normalize_skills p.2))
    let cvN := job_skills.map (fun p => (p.1, normalize_skills ((alookup cv_skills p.1).getD [])))
    let t := match_totals jobN cvN
    if t.1 = 0 then 0
    else pythonRound2 ((t.2 : ℚ) / (t.1 : ℚ) * 100)

/-- Total number of required job skills after normalization, pooled over all
categories: the denominator `calculate_match_score` accumulates. -/
def total_required_of (job_skills : List (String × List String)) : Nat :=
  (job_skills.map (fun p => (normalize_skills p.2).length)).sum

theorem pyWordsAux_append_word (w rest acc : List Char)
    (hw : ∀ c ∈ w, isPyWsChar c = false) :
    pyWordsAux (w ++ rest) acc = pyWordsAux rest (w.reverse ++ acc) := by
  induction w generalizing acc with
  | nil => simp
  | cons c cs ih =>
    have hc : isPyWsChar c = false := hw c (by simp)
    simp only [List.cons_append, pyWordsAux, hc, Bool.false_eq_true, if_false,
      List.reverse_cons, List.append_assoc, List.singleton_append]
    exact ih _ (fun d hd => hw d (by simp [hd]))

theorem pyWords_joinSpace (ws : List (List Char))
    (h : ∀ w ∈ ws, w ≠ [] ∧ ∀ c ∈ w, isPyWsChar c = false) :
    pyWords (joinSpace ws) = ws := by
  induction ws with
  | nil => rfl
  | cons w tail ih =>
    obtain ⟨hw, hwc⟩ := h w (by simp)
    cases tail with
    | nil =>
      show pyWordsAux (joinSpace [w]) [] = [w]
      have : joinSpace [w] = w ++ [] := by simp [joinSpace]
      rw [this, pyWordsAux_append_word w [] [] hwc]
      simp [pyWordsAux, hw]
    | cons v vs =>
      show pyWordsAux (joinSpace (w :: v :: vs)) [] = w :: v :: vs
      have hj : joinSpace (w :: v :: vs) = w ++ ' ' :: joinSpace (v :: vs) := rfl
      rw [hj, pyWordsAux_append_word w _ [] hwc]
      have hsp : isPyWsChar ' ' = true := by decide
      have hrev : w.reverse ≠ [] := by simpa using hw
      simp only [List.append_nil, pyWordsAux, hsp, if_true, hrev, if_false,
        List.reverse_reverse]
      exact congrArg (w :: ·) (ih (fun u hu => h u (by simp [hu])))

theorem pyWordsAux_sound (cs : List Char) :
    ∀ acc, (∀ c ∈ acc, isPyWsChar c = false) →
    ∀ w ∈ pyWordsAux cs acc, w ≠ [] ∧ ∀ c ∈ w, isPyWsChar c = false ∧ (c ∈ cs ∨ c ∈ acc) := by
  induction cs with
  | nil =>
    intro acc hacc w hwmem
    by_cases h : acc = []
    · simp [pyWordsAux, h] at hwmem
    · simp only [pyWordsAux, h, if_false, List.mem_singleton] at hwmem
      subst hwmem
      refine ⟨by simpa using h, fun c hc => ?_⟩
      have hc2 : c ∈ acc := by simpa using hc
      exact ⟨hacc c hc2, Or.inr hc2⟩
  | cons a cs ih =>
    intro acc hacc w hwmem
    by_cases ha : isPyWsChar a = true
    · have step : ∀ u ∈ pyWordsAux cs [], u ≠ [] ∧
          ∀ c ∈ u, isPyWsChar c = false ∧ (c ∈ a :: cs ∨ c ∈ acc) := by
        intro u hu
        obtain ⟨h1, h2⟩ := ih [] (by simp) u hu
        refine ⟨h1, fun c hc => ⟨(h2 c hc).1, ?_⟩⟩
        rcases (h2 c hc).2 with hl | hr
        · exact Or.inl (List.mem_cons_of_mem a hl)
        · simp at hr
      by_cases h : acc = []
      · simp only [pyWordsAux, ha, if_true, h, if_true] at hwmem
        exact step w hwmem
      · simp only [pyWordsAux, ha, if_true, h, if_false, List.mem_cons] at hwmem
        rcases hwmem with hw1 | hw2
        · subst hw1
          refine ⟨by simpa using h, fun c hc => ?_⟩
          have hc2 : c ∈ acc := by simpa using hc
          exact ⟨hacc c hc2, Or.inr hc2⟩
        · exact step w hw2
    · have ha2 : isPyWsChar a = false := by simpa using ha
      simp only [pyWordsAux, ha2, Bool.false_eq_true, if_false] at hwmem
      have hacc2 : ∀ c ∈ a :: acc, isPyWsChar c = false := by
        intro c hc
        rcases List.mem_cons.mp hc with h | h
        · subst h; exact ha2
        · exact hacc c h
      obtain ⟨h1, h2⟩ := ih (a :: acc) hacc2 w hwmem
      refine ⟨h1, fun c hc => ⟨(h2 c hc).1, ?_⟩⟩
      rcases (h2 c hc).2 with hl | hr
      · exact Or.inl (List.mem_cons_of_mem a hl)
      · rcases List.mem_cons.mp hr with h | h
        · exact Or.inl (by simp [h])
        · exact Or.inr h

theorem pyWords_sound (cs : List Char) :
    ∀ w ∈ pyWords cs, w ≠ [] ∧ ∀ c ∈ w, isPyWsChar c = false ∧ c ∈ cs := by
  intro w hw
  obtain ⟨h1, h2⟩ := pyWordsAux_sound cs [] (by simp) w hw
  refine ⟨h1, fun c hc => ⟨(h2 c hc).1, ?_⟩⟩
  rcases (h2 c hc).2 with hl | hr
  · exact hl
  · simp at hr

theorem joinSpace_mem (ws : List (List Char)) :
    ∀ c ∈ joinSpace ws, c = ' ' ∨ ∃ w ∈ ws, c ∈ w := by
  induction ws with
  | nil => intro c hc; simp [joinSpace] at hc
  | cons w tail ih =>
    intro c hc
    cases tail with
    | nil =>
      refine Or.inr ⟨w, by simp, ?_⟩
      simpa [joinSpace] using hc
    | cons v vs =>
      have : c ∈ w ++ ' ' :: joinSpace (v :: vs) := hc
      rcases List.mem_append.mp this with h | h
      · exact Or.inr ⟨w, by simp, h⟩
      · rcases List.mem_cons.mp h with h | h
        · exact Or.inl h
        · rcases ih c h with h1 | ⟨u, hu, hcu⟩
          · exact Or.inl h1
          · exact Or.inr ⟨u, by simp [hu], hcu⟩

theorem map_eq_self_of_fixed {f : Char → Char} (l : List Char) (h : ∀ c ∈ l, f c = c) :
    l.map f = l := by
  induction l with
  | nil => rfl
  | cons a l ih => simp only [List.map_cons, h a (by simp), ih (fun c hc => h c (by simp [hc]))]

theorem charNorm_chars_fixed (cs : List Char) :
    ∀ c ∈ charNorm cs, pyLowerChar c = c := by
  intro c hc
  rcases joinSpace_mem _ c hc with hsp | ⟨w, hw, hcw⟩
  · subst hsp
    exact pyLowerChar_eq_self (by decide)
  · have := (pyWords_sound _ w hw).2 c hcw
    rcases List.mem_map.mp this.2 with ⟨d, _, hd⟩
    rw [← hd]
    exact pyLowerChar_idem d

theorem charNorm_idem (cs : List Char) : charNorm (charNorm cs) = charNorm cs := by
  have h1 : (charNorm cs).map pyLowerChar = charNorm cs :=
    map_eq_self_of_fixed _ (charNorm_chars_fixed cs)
  show joinSpace (pyWords ((charNorm cs).map pyLowerChar)) = charNorm cs
  rw [h1]
  show joinSpace (pyWords (joinSpace (pyWords (cs.map pyLowerChar)))) = charNorm cs
  rw [pyWords_joinSpace _ (fun w hw => ⟨(pyWords_sound _ w hw).1,
    fun c hc => ((pyWords_sound _ w hw).2 c hc).1⟩)]
  rfl

theorem normWS_idem (s : String) : normWS (normWS s) = normWS s :=
  congrArg String.mk (charNorm_idem s.data)

theorem normalize_skills_foldl_mem (l : List String) :
    ∀ acc, (∀ s ∈ acc, s ≠ "" ∧ normWS s = s) →
    ∀ s ∈ l.foldl
      (fun acc skill =>
        if skill = "" then acc
        else
          let n := normWS skill
          if n = "" then acc else pyInsert acc n) acc,
      s ≠ "" ∧ normWS s = s := by
  induction l with
  | nil => intro acc hacc s hs; exact hacc s hs
  | cons a l ih =>
    intro acc hacc s hs
    refine ih _ ?_ s hs
    intro t ht
    by_cases h1 : a = ""
    · exact hacc t (by simpa [h1] using ht)
    · by_cases h2 : normWS a = ""
      · exact hacc t (by simpa [h1, h2] using ht)
      · simp only [h1, if_false, h2, pyInsert] at ht
        by_cases h3 : normWS a ∈ acc
        · exact hacc t (by simpa [h3] using ht)
        · simp only [h3, if_false] at ht
          rcases List.mem_append.mp ht with h | h
          · exact hacc t h
          · have : t = normWS a := by simpa using h
            subst this
            exact ⟨h2, normWS_idem a⟩

theorem normalize_skills_foldl_nodup (l : List String) :
    ∀ acc : List String, acc.Nodup →
    (l.foldl
      (fun acc skill =>
        if skill = "" then acc
        else
          let n := normWS skill
          if n = "" then acc else pyInsert acc n) acc).Nodup := by
  induction l with
  | nil => intro acc hacc; exact hacc
  | cons a l ih =>
    intro acc hacc
    refine ih _ ?_
    by_cases h1 : a = ""
    · simpa [h1] using hacc
    · by_cases h2 : normWS a = ""
      · simpa [h1, h2] using hacc
      · simp only [h1, if_false, h2, pyInsert]
        by_cases h3 : normWS a ∈ acc
        · simpa [h3] using hacc
        · simpa [h3] using List.Nodup.append hacc (by simp) (by simpa using h3)

theorem normalize_skills_foldl_fixed (l : List String) :
    ∀ acc, (∀ s ∈ l, s ≠ "" ∧ normWS s = s) → (acc ++ l).Nodup →
    l.foldl
      (fun acc skill =>
        if skill = "" then acc
        else
          let n := normWS skill
          if n = "" then acc else pyInsert acc n) acc = acc ++ l := by
  induction l with
  | nil => intro acc _ _; simp
  | cons a l ih =>
    intro acc hl hnd
    obtain ⟨ha1, ha2⟩ := hl a (by simp)
    have hstep : (if a = "" then acc
        else
          let n := normWS a
          if n = "" then acc else pyInsert acc n) = acc ++ [a] := by
      have hnotin : a ∉ acc := by
        intro hmem
        have := List.disjoint_of_nodup_append hnd hmem
        simp at this
      simp [ha1, ha2, pyInsert, hnotin]
    simp only [List.foldl_cons, hstep]
    have := ih (acc ++ [a]) (fun s hs => hl s (by simp [hs])) (by simpa using hnd)
    simpa using this

/-- C8: `normalize_skills` is idempotent, its output is duplicate-free, and each
output member is non-empty and fixed by re-normalization (already lowercase, with
internal whitespace collapsed to single spaces and ends trimmed). -/
theorem C8_normalize_skills_idempotent (x : List String) :
    normalize_skills (normalize_skills x) = normalize_skills x ∧
    (normalize_skills x).Nodup ∧
    ∀ s ∈ normalize_skills x, s ≠ "" ∧ normWS s = s := by
  have hmem : ∀ s ∈ normalize_skills x, s ≠ "" ∧ normWS s = s :=
    normalize_skills_foldl_mem x [] (by simp)
  have hnd : (normalize_skills x).Nodup :=
    normalize_skills_foldl_nodup x [] (by simp)
  refine ⟨?_, hnd, hmem⟩
  have := normalize_skills_foldl_fixed (normalize_skills x) [] hmem (by simpa using hnd)
  simpa [normalize_skills] using this

/-- Witness for C8 at a concrete input: `normalize_skills` collapses case,
whitespace and duplicates of `["  Py   Thon ", "py thon", ""]` and is idempotent
on the result. -/
theorem C8_normalize_skills_idempotent_witness :
    normalize_skills (normalize_skills ["  Py   Thon ", "py thon", ""]) =
      normalize_skills ["  Py   Thon ", "py thon", ""] ∧
    ("py thon" ≠ "" ∧ normWS "py thon" = "py thon") :=
  ⟨(C8_normalize_skills_idempotent ["  Py   Thon ", "py thon", ""]).1,
   (C8_normalize_skills_idempotent ["  Py   Thon ", "py thon", ""]).2.2 "py thon" (by decide)⟩

theorem match_totals_foldl_le (l : List (String × List String)) (cvN : List (String × List String)) :
    ∀ acc : Nat × Nat, acc.2 ≤ acc.1 →
    (l.foldl
      (fun acc p =>
        if p.2 = [] then acc
        else
          let cvs := (alookup cvN p.1).getD []
          (acc.1 + p.2.length, acc.2 + (p.2.filter (fun s => decide (s ∈ cvs))).length)) acc).2 ≤
    (l.foldl
      (fun acc p =>
        if p.2 = [] then acc
        else
          let cvs := (alookup cvN p.1).getD []
          (acc.1 + p.2.length, acc.2 + (p.2.filter (fun s => decide (s ∈ cvs))).length)) acc).1 := by
  induction l with
  | nil => intro acc h; exact h
  | cons a l ih =>
    intro acc h
    refine ih _ ?_
    by_cases ha : a.2 = []
    · simpa [ha] using h
    · simp only [ha, if_false]
      exact Nat.add_le_add h (List.length_filter_le _ _)

theorem match_totals_le (jobN cvN : List (String × List String)) :
    (match_totals jobN cvN).2 ≤ (match_totals jobN cvN).1 :=
  match_totals_foldl_le jobN cvN (0, 0) (by simp)

theorem match_totals_foldl_fst (l : List (String × List String)) (cvN : List (String × List String)) :
    ∀ acc : Nat × Nat,
    (l.foldl
      (fun acc p =>
        if p.2 = [] then acc
        else
          let cvs := (alookup cvN p.1).getD []
          (acc.1 + p.2.length, acc.2 + (p.2.filter (fun s => decide (s ∈ cvs))).length)) acc).1 =
    acc.1 + (l.map (fun p => p.2.length)).sum := by
  induction l with
  | nil => intro acc; simp
  | cons a l ih =>
    intro acc
    by_cases ha : a.2 = []
    · simp [ha, ih]
    · simp only [List.foldl_cons, ha, if_false, List.map_cons, List.sum_cons, ih]
      omega

theorem match_totals_fst (jobN cvN : List (String × List String)) :
    (match_totals jobN cvN).1 = (jobN.map (fun p => p.2.length)).sum := by
  simpa using match_totals_foldl_fst jobN cvN (0, 0)

theorem roundHalfEven_nonneg {x : ℚ} (h : 0 ≤ x) : 0 ≤ roundHalfEven x := by
  have hf : (0 : ℤ) ≤ ⌊x⌋ := Int.floor_nonneg.mpr h
  unfold roundHalfEven
  split
  · exact hf
  · split
    · omega
    · split
      · exact hf
      · omega

theorem roundHalfEven_le {x : ℚ} {B : ℤ} (h : x ≤ (B : ℚ)) : roundHalfEven x ≤ B := by
  have hf : ⌊x⌋ ≤ B := by
    have := Int.floor_le_floor h
    simpa using this
  unfold roundHalfEven
  split
  · exact hf
  · rename_i h1
    have hx : (1 : ℚ) / 2 ≤ x - ⌊x⌋ := le_of_not_lt h1
    have hne : ⌊x⌋ ≠ B := by
      intro he
      rw [he] at hx
      have : x - (B : ℚ) ≤ 0 := by linarith
      linarith
    split
    · omega
    · split
      · exact hf
      · omega

theorem pythonRound2_bounds {x : ℚ} (h0 : 0 ≤ x) (h1 : x ≤ 100) :
    0 ≤ pythonRound2 x ∧ pythonRound2 x ≤ 100 := by
  have hb0 : (0 : ℤ) ≤ roundHalfEven (x * 100) := roundHalfEven_nonneg (by positivity)
  have hb1 : roundHalfEven (x * 100) ≤ (10000 : ℤ) := by
    refine roundHalfEven_le ?_
    push_cast
    linarith
  constructor
  · unfold pythonRound2
    positivity
  · unfold pythonRound2
    rw [div_le_iff₀ (by norm_num : (0:ℚ) < 100)]
    have : ((roundHalfEven (x * 100) : ℚ)) ≤ (10000 : ℚ) := by exact_mod_cast hb1
    linarith

theorem calculate_match_score_eq (job cv : List (String × List String))
    (hne : ¬ (job = [] ∨ cv = [])) (m r : Nat)
    (hmt : match_totals (job.map (fun p => (p.1, normalize_skills p.2)))
      (job.map (fun p => (p.1, normalize_skills ((alookup cv p.1).getD [])))) = (r, m))
    (hr : r ≠ 0) :
    calculate_match_score job cv = pythonRound2 ((m : ℚ) / (r : ℚ) * 100) := by
  unfold calculate_match_score
  simp [hne, hmt, hr]

/-- C6: for every pair of job and candidate skill mappings the match score lies
in `[0, 100]`, and it is `0` whenever the pooled number of required job skills
is `0` (division is guarded, not raised). -/
theorem C6_match_score_bounds (job cv : List (String × List String)) :
    (0 ≤ calculate_match_score job cv ∧ calculate_match_score job cv ≤ 100) ∧
    (total_required_of job = 0 → calculate_match_score job cv = 0) := by
  unfold calculate_match_score
  by_cases hempty : job = [] ∨ cv = []
  · simp [hempty]
  · simp only [hempty, if_false]
    set jobN := job.map (fun p => (p.1, normalize_skills p.2)) with hjobN
    set cvN := job.map (fun p => (p.1, normalize_skills ((alookup cv p.1).getD []))) with hcvN
    have hfst : (match_totals jobN cvN).1 = total_required_of job := by
      rw [match_totals_fst, hjobN, total_required_of, List.map_map]
      rfl
    by_cases hz : (match_totals jobN cvN).1 = 0
    · simp [hz]
    · simp only [hz, if_false]
      have hle : (match_totals jobN cvN).2 ≤ (match_totals jobN cvN).1 := match_totals_le _ _
      have hpos : (0 : ℚ) < ((match_totals jobN cvN).1 : ℚ) := by
        have : 0 < (match_totals jobN cvN).1 := Nat.pos_of_ne_zero hz
        exact_mod_cast this
      have hratio0 : 0 ≤ ((match_totals jobN cvN).2 : ℚ) / ((match_totals jobN cvN).1 : ℚ) * 100 := by
        positivity
      have hratio1 : ((match_totals jobN cvN).2 : ℚ) / ((match_totals jobN cvN).1 : ℚ) * 100 ≤ 100 := by
        have hq : ((match_totals jobN cvN).2 : ℚ) / ((match_totals jobN cvN).1 : ℚ) ≤ 1 := by
          rw [div_le_one hpos]
          exact_mod_cast hle
        linarith
      have hb := pythonRound2_bounds hratio0 hratio1
      refine ⟨⟨hb.1, hb.2⟩, ?_⟩
      intro h0
      exact absurd (hfst.trans h0) hz

/-- Witness for C6's guarded-zero case: a job whose only category normalizes to
the empty set has `total_required = 0` and scores `0`. -/
theorem C6_match_score_bounds_witness :
    total_required_of [("skills", [""])] = 0 ∧
    calculate_match_score [("skills", [""])] [("skills", ["x"])] = 0 :=
  ⟨by decide, (C6_match_score_bounds [("skills", [""])] [("skills", ["x"])]).2 (by decide)⟩

/-- C1: on the spec's concrete case (job requires technologies python and react
plus soft skill communication; the candidate has technologies python and docker)
the pooled totals are `total_required = 3`, `total_matched = 1`, and the score is
exactly `33.33`. -/
theorem C1_concrete_micro_average :
    total_required_of [("technologies", ["python", "react"]), ("soft_skills", ["communication"])] = 3 ∧
    (match_totals
      ([("technologies", ["python", "react"]), ("soft_skills", ["communication"])].map
        (fun p => (p.1, normalize_skills p.2)))
      ([("technologies", ["python", "react"]), ("soft_skills", ["communication"])].map
        (fun p => (p.1, normalize_skills
          ((alookup [("technologies", ["python", "docker"])] p.1).getD []))))).2 = 1 ∧
    calculate_match_score
      [("technologies", ["python", "react"]), ("soft_skills", ["communication"])]
      [("technologies", ["python", "docker"])] = 3333 / 100 := by
  refine ⟨by decide, by decide, ?_⟩
  have hmt : match_totals
      ([("technologies", ["python", "react"]), ("soft_skills", ["communication"])].map
        (fun p => (p.1, normalize_skills p.2)))
      ([("technologies", ["python", "react"]), ("soft_skills", ["communication"])].map
        (fun p => (p.1, normalize_skills
          ((alookup [("technologies", ["python", "docker"])] p.1).getD [])))) = (3, 1) := by
    decide
  have hscore := calculate_match_score_eq
    [("technologies", ["python", "react"]), ("soft_skills", ["communication"])]
    [("technologies", ["python", "docker"])] (by decide) 1 3 hmt (by decide)
  rw [hscore]
  have hx : ((1 : ℕ) : ℚ) / ((3 : ℕ) : ℚ) * 100 * 100 = (10000 : ℚ) / 3 := by
    push_cast
    ring
  have hf : ⌊(10000 : ℚ) / 3⌋ = 3333 := by
    rw [Int.floor_eq_iff]
    constructor
    · norm_num
    · norm_num
  have hlt : (10000 : ℚ) / 3 - ((3333 : ℤ) : ℚ) < 1 / 2 := by norm_num
  unfold pythonRound2 roundHalfEven
  rw [hx, hf, if_pos hlt]
  norm_num

/-- Qualitative tiers of the match score (spec section 4.7). -/
inductive ScoreTier : Type
  | low : ScoreTier
  | medium : ScoreTier
  | high : ScoreTier
deriving DecidableEq

/-- Tier selection thresholds as the spec states them: below 50 low, 50 to
under 80 medium, 80 and up high. -/
def tierOf (score : ℚ) : ScoreTier :=
  if score < 50 then ScoreTier.low
  else if score < 80 then ScoreTier.medium
  else ScoreTier.high

/-- Translation key of each tier. -/
def tierKey : ScoreTier → String
  | ScoreTier.low => "score_interpretation.low"
  | ScoreTier.medium => "score_interpretation.medium"
  | ScoreTier.high => "score_interpretation.high"

/-- Embedding of the `default_interpretations` dict of `get_score_interpretation`
(job_scanner.py lines 375-379). -/
def default_interpretations : ScoreTier → String
  | ScoreTier.low => "There is significant room for improvement in matching the job requirements."
  | ScoreTier.medium => "You have some matching skills, but could improve your match."
  | ScoreTier.high => "Great match! Your skills align well with the job requirements."

/-- Embedding of `get_score_interpretation` (job_scanner.py lines 363-390).
`trans` abstracts `translator.get`, which returns the key itself when no
localized text exists (translations.py line 82). -/
def get_score_interpretation (trans : String → String → String) (match_score : ℚ)
    (language : String) : String :=
  if match_score < 50 then
    let t := trans "score_interpretation.low" language
    if t ≠ "score_interpretation.low" then t else default_interpretations ScoreTier.low
  else if match_score < 80 then
    let t := trans "score_interpretation.medium" language
    if t ≠ "score_interpretation.medium" then t else default_interpretations ScoreTier.medium
  else
    let t := trans "score_interpretation.high" language
    if t ≠ "score_interpretation.high" then t else default_interpretations ScoreTier.high

/-- C9: `get_score_interpretation` selects the tier by the spec's thresholds
(below 50 low, 50 to under 80 medium, 80 and up high), always returns either the
localized message for that tier or its default English message, and returns the
default English message whenever the localization lookup falls through to the
key (so it never fails). -/
theorem C9_score_interpretation_tiers (trans : String → String → String) (score : ℚ)
    (lang : String) :
    (get_score_interpretation trans score lang = trans (tierKey (tierOf score)) lang ∨
      get_score_interpretation trans score lang = default_interpretations (tierOf score)) ∧
    (trans (tierKey (tierOf score)) lang = tierKey (tierOf score) →
      get_score_interpretation trans score lang = default_interpretations (tierOf score)) ∧
    (score < 50 → tierOf score = ScoreTier.low) ∧
    (50 ≤ score → score < 80 → tierOf score = ScoreTier.medium) ∧
    (80 ≤ score → tierOf score = ScoreTier.high) := by
  have hkey : get_score_interpretation trans score lang =
      (if trans (tierKey (tierOf score)) lang ≠ tierKey (tierOf score)
        then trans (tierKey (tierOf score)) lang
        else default_interpretations (tierOf score)) := by
    unfold get_score_interpretation tierOf
    by_cases h1 : score < 50
    · simp [h1, tierKey]
    · by_cases h2 : score < 80
      · simp [h1, h2, tierKey]
      · simp [h1, h2, tierKey]
  refine ⟨?_, ?_, ?_, ?_, ?_⟩
  · rw [hkey]
    by_cases he : trans (tierKey (tierOf score)) lang = tierKey (tierOf score)
    · exact Or.inr (by simp [he])
    · exact Or.inl (by simp [he])
  · intro he
    rw [hkey]
    simp [he]
  · intro h
    simp [tierOf, h]
  · intro ha hb
    simp [tierOf, hb, not_lt.mpr ha]
  · intro h
    have hn1 : ¬ score < 50 := by linarith
    have hn2 : ¬ score < 80 := by linarith
    simp [tierOf, hn1, hn2]

/-- Witness for C9: with every localization missing (the lookup returns its
key), a score of 90 lands in the high tier and yields the default English high
message. -/
theorem C9_score_interpretation_tiers_witness :
    tierOf 90 = ScoreTier.high ∧
    get_score_interpretation (fun k _ => k) 90 "bg" = default_interpretations ScoreTier.high := by
  have h := C9_score_interpretation_tiers (fun k _ => k) 90 "bg"
  have htier : tierOf (90 : ℚ) = ScoreTier.high := h.2.2.2.2 (by norm_num)
  refine ⟨htier, ?_⟩
  have hdef := h.2.1 rfl
  rw [htier] at hdef
  exact hdef

/-- Embedding of `AIClient.extract_skills` (ai_client.py lines 195-223). The
awaited `generate_structured_output` call is abstracted as its outcome `gen`:
either an error (network failure, malformed response, no client) or a parsed
JSON object modelled as an association list. The `except ... raise` handler
re-raises, so errors pass through unchanged. -/
def AIClient_extract_skills (gen : Except String (List (String × List String))) :
    Except String (List (String × List String)) :=
  match gen with
  | Except.error e => Except.error e
  | Except.ok result =>
      Except.ok
        [("skills", ((alookup result "technical_skills").getD []) ++
            ((alookup result "skills").getD [])),
         ("technologies", (alookup result "technologies").getD []),
         ("soft_skills", (alookup result "soft_skills").getD [])]

/-- Counterexample to C2: when the external collaborator call errors, the
adapter re-raises that error, so its caller sees an error and not a skill set
(no fallback to the deterministic extractor happens). -/
theorem C2_error_propagates_counterexample :
    AIClient_extract_skills (Except.error "network error") = Except.error "network error" ∧
    (AIClient_extract_skills (Except.error "network error")).isOk = false :=
  ⟨rfl, rfl⟩

/-- C2 as amended: `AIClient.extract_skills` re-raises every external failure
unchanged to its caller, and maps an all-empty successful response to an
all-empty skill mapping (no deterministic-extractor fallback in either case). -/
theorem C2_amended_adapter_reraises (e : String) :
    AIClient_extract_skills (Except.error e) = Except.error e ∧
    AIClient_extract_skills (Except.ok [("technical_skills", []), ("skills", []),
        ("technologies", []), ("soft_skills", [])]) =
      Except.ok [("skills", []), ("technologies", []), ("soft_skills", [])] :=
  ⟨rfl, rfl⟩

/-- Atom of the regex subset `extract_skills_using_regex` uses: a literal
character, a one-or-more whitespace run `\s+`, or an optional group `(?:...)?`. -/
inductive RAtom : Type
  | lit : Char → RAtom
  | ws : RAtom
  | opt : List RAtom → RAtom

/-- Backtracking matcher for a sequence of atoms against text: the possible
remainders after a match, listed in the order the Python engine prefers them
(greedy choice first), with literals compared case-insensitively as
`re.IGNORECASE` does. A one-or-more whitespace run is consumed one character at
a time and re-armed as an optional run, which yields exactly the greedy-first
backtracking order of `\s+`. The structural `fuel` only bounds recursion depth:
every step spends one unit, a match over `cs` needs at most `2 * cs.length`
units plus the pattern size, and every call site passes more than that, so the
out-of-fuel branch is unreachable for the transcribed patterns. -/
def matchSeq (fuel : Nat) (as : List RAtom) (cs : List Char) : List (List Char) :=
  match fuel with
  | 0 => []
  | fuel2 + 1 =>
    match as, cs with
    | [], _ => [cs]
    | RAtom.lit _ :: _, [] => []
    | RAtom.lit c :: rest, d :: cs2 =>
      if pyLowerChar d = c then matchSeq fuel2 rest cs2 else []
    | RAtom.opt g :: rest, _ => matchSeq fuel2 (g ++ rest) cs ++ matchSeq fuel2 rest cs
    | RAtom.ws :: _, [] => []
    | RAtom.ws :: rest, d :: cs2 =>
      if isPyWsChar d then matchSeq fuel2 (RAtom.opt [RAtom.ws] :: rest) cs2 else []

/-- Word-character test of `\b` (`re` word characters, ASCII range). -/
def isWordChar (c : Char) : Bool :=
  isAsciiAlphaChar c || (Nat.ble 48 c.toNat && Nat.ble c.toNat 57) || c.toNat == 95

/-- Wordness of an optional character: text ends count as non-word. -/
def isWordCharOpt : Option Char → Bool
  | none => false
  | some c => isWordChar c

/-- A `\b` boundary holds between two (optional) characters iff exactly one side
is a word character. -/
def wordBoundary (a b : Option Char) : Bool :=
  isWordCharOpt a != isWordCharOpt b

/-- Scan the remainders of one alternative in preferred order and accept the
first whose end position satisfies the trailing `\b`; returns the number of
characters consumed. `prevW` is the wordness of the character before the match
start. -/
def pickRest (prevW : Bool) (cs : List Char) : List (List Char) → Option Nat
  | [] => none
  | rest :: more =>
    let n := cs.length - rest.length
    let lastW := if n = 0 then prevW else isWordChar ((cs.take n).getLastD ' ')
    if lastW != isWordCharOpt rest.head? then some n else pickRest prevW cs more

/-- Try the alternatives of one `\b(?:a1|...|ak)\b` pattern in order at the
current position. -/
def tryAlts (alts : List (List RAtom)) (prevW : Bool) (cs : List Char) : Option Nat :=
  alts.findSome? (fun a => pickRest prevW cs (matchSeq (2 * cs.length + 1000) a cs))

/-- Left-to-right non-overlapping scan of `re.findall` for one pattern: at each
position check the leading `\b`, try the alternatives, emit the matched text and
resume after it. -/
def findallAux (alts : List (List RAtom)) : Nat → Option Char → List Char → List (List Char)
  | 0, _, _ => []
  | _ + 1, _, [] => []
  | fuel + 1, prev, c :: cs =>
    if wordBoundary prev (some c) then
      match tryAlts alts (isWordCharOpt prev) (c :: cs) with
      | some n =>
        if n = 0 then findallAux alts fuel (some c) cs
        else
          (c :: cs).take n ::
            findallAux alts fuel (some ((c :: cs).getLastD ' ')) ((c :: cs).drop n)
      | none => findallAux alts fuel (some c) cs
    else findallAux alts fuel (some c) cs

/-- All matches of one alternation pattern in a text, as `re.findall` returns
them (whole match; the groups in the source patterns are non-capturing). The
scan fuel `length + 1` suffices: every step either advances one position or
skips a non-empty match. -/
def findall (alts : List (List RAtom)) (text : String) : List String :=
  (findallAux alts (text.data.length + 1) none text.data).map (fun chars => String.mk chars)

/-- Literal-run helper for pattern transcription. -/
def rlit (s : String) : List RAtom :=
  s.data.map RAtom.lit

/-- Transcription of the first tech pattern of `extract_skills_using_regex`
(job_scanner.py line 51). -/
def tech_pattern1 : List (List RAtom) :=
  [rlit "html", rlit "css", rlit "js", rlit "javascript", rlit "typescript", rlit "ts",
   rlit "jsx", rlit "tsx"]

/-- Transcription of the second tech pattern (job_scanner.py line 52):
`\+` and `#` are literal characters. -/
def tech_pattern2 : List (List RAtom) :=
  [rlit "python", rlit "py", rlit "java", rlit "c#", rlit "c++", rlit "cpp", rlit "go",
   rlit "rust", rlit "kotlin", rlit "swift", rlit "php", rlit "ruby", rlit "scala",
   rlit "r", rlit "dart", rlit "elixir", rlit "clojure", rlit "haskell", rlit "perl"]

/-- Transcription of the third tech pattern (job_scanner.py line 53). -/
def tech_pattern3 : List (List RAtom) :=
  [rlit "react", rlit "angular", rlit "vue", rlit "svelte",
   rlit "next" ++ [RAtom.opt (rlit ".")] ++ rlit "js",
   rlit "nuxt" ++ [RAtom.opt (rlit ".")] ++ rlit "js",
   rlit "sveltekit", rlit "express", rlit "django", rlit "flask", rlit "fastapi",
   rlit "spring" ++ [RAtom.opt ([RAtom.ws] ++ rlit "boot")],
   rlit "laravel", rlit "rails",
   rlit "ruby" ++ [RAtom.ws] ++ rlit "on" ++ [RAtom.ws] ++ rlit "rails",
   rlit "asp.net",
   rlit ".net" ++ [RAtom.ws] ++ rlit "core",
   rlit "blazor", rlit "xamarin", rlit "flutter",
   rlit "react" ++ [RAtom.ws] ++ rlit "native",
   rlit "ionic", rlit "electron"]

/-- Transcription of the fourth tech pattern (job_scanner.py line 54). -/
def tech_pattern4 : List (List RAtom) :=
  [rlit "mysql",
   rlit "postgres" ++ [RAtom.opt (rlit "ql")],
   rlit "mongodb", rlit "redis", rlit "elasticsearch", rlit "dynamodb", rlit "cassandra",
   rlit "couchbase", rlit "oracle",
   rlit "sql" ++ [RAtom.ws] ++ rlit "server",
   rlit "sqlite", rlit "firestore", rlit "bigtable", rlit "cosmosdb", rlit "neo4j",
   rlit "arangodb"]

/-- Transcription of the fifth tech pattern (job_scanner.py line 55). -/
def tech_pattern5 : List (List RAtom) :=
  [rlit "aws",
   rlit "amazon" ++ [RAtom.ws] ++ rlit "web" ++ [RAtom.ws] ++ rlit "services",
   rlit "azure",
   rlit "google" ++ [RAtom.ws] ++ rlit "cloud",
   rlit "gcp",
   rlit "ibm" ++ [RAtom.ws] ++ rlit "cloud",
   rlit "oracle" ++ [RAtom.ws] ++ rlit "cloud",
   rlit "alibaba" ++ [RAtom.ws] ++ rlit "cloud",
   rlit "digitalocean", rlit "heroku", rlit "vercel", rlit "netlify", rlit "firebase"]

/-- Transcription of the sixth tech pattern (job_scanner.py line 56). -/
def tech_pattern6 : List (List RAtom) :=
  [rlit "docker", rlit "kubernetes", rlit "k8s", rlit "terraform", rlit "ansible",
   rlit "puppet", rlit "chef", rlit "jenkins",
   rlit "github" ++ [RAtom.ws] ++ rlit "actions",
   rlit "gitlab" ++ [RAtom.ws] ++ rlit "ci",
   rlit "circleci",
   rlit "travis" ++ [RAtom.ws] ++ rlit "ci",
   rlit "argo" ++ [RAtom.ws] ++ rlit "cd",
   rlit "flux", rlit "helm", rlit "istio", rlit "linkerd"]

/-- Transcription of the seventh tech pattern (job_scanner.py line 57). -/
def tech_pattern7 : List (List RAtom) :=
  [rlit "tensorflow", rlit "pytorch", rlit "keras", rlit "scikit-learn", rlit "opencv",
   rlit "nltk", rlit "spacy", rlit "huggingface", rlit "langchain", rlit "llama",
   rlit "gpt", rlit "bert", rlit "transformers",
   rlit "stable" ++ [RAtom.ws] ++ rlit "diffusion",
   rlit "dall-e", rlit "midjourney"]

/-- The seven tech patterns of `extract_skills_using_regex` (job_scanner.py
lines 50-58), in source order. -/
def tech_patterns : List (List (List RAtom)) :=
  [tech_pattern1, tech_pattern2, tech_pattern3, tech_pattern4, tech_pattern5,
   tech_pattern6, tech_pattern7]

/-- Transcription of the soft-skill pattern (job_scanner.py lines 61-63). -/
def soft_pattern : List (List RAtom) :=
  [rlit "communication", rlit "teamwork", rlit "leadership",
   rlit "problem" ++ [RAtom.opt (rlit "-")] ++ rlit "solving",
   rlit "critical" ++ [RAtom.ws] ++ rlit "thinking",
   rlit "adaptability",
   rlit "time" ++ [RAtom.ws] ++ rlit "management",
   rlit "creativity",
   rlit "emotional" ++ [RAtom.ws] ++ rlit "intelligence",
   rlit "conflict" ++ [RAtom.ws] ++ rlit "resolution",
   rlit "collaboration",
   rlit "active" ++ [RAtom.ws] ++ rlit "listening",
   rlit "empathy", rlit "patience", rlit "flexibility",
   rlit "work" ++ [RAtom.ws] ++ rlit "ethic",
   rlit "responsibility", rlit "dependability",
   rlit "self" ++ [RAtom.opt (rlit "-")] ++ rlit "motivation",
   rlit "professionalism", rlit "initiative",
   rlit "decision" ++ [RAtom.ws] ++ rlit "making",
   rlit "stress" ++ [RAtom.ws] ++ rlit "management",
   rlit "organization",
   rlit "attention" ++ [RAtom.ws] ++ rlit "to" ++ [RAtom.ws] ++ rlit "detail",
   rlit "multitasking", rlit "networking", rlit "negotiation", rlit "presentation",
   rlit "public" ++ [RAtom.ws] ++ rlit "speaking",
   rlit "writing", rlit "research", rlit "analysis", rlit "planning", rlit "delegation",
   rlit "mentoring", rlit "coaching", rlit "training", rlit "supervision",
   rlit "project" ++ [RAtom.ws] ++ rlit "management",
   rlit "strategic" ++ [RAtom.ws] ++ rlit "thinking",
   rlit "innovation", rlit "resourcefulness", rlit "persuasion", rlit "influence",
   rlit "diplomacy", rlit "tact",
   rlit "cultural" ++ [RAtom.ws] ++ rlit "awareness",
   rlit "customer" ++ [RAtom.ws] ++ rlit "service",
   rlit "sales", rlit "marketing",
   rlit "business" ++ [RAtom.ws] ++ rlit "development",
   rlit "financial" ++ [RAtom.ws] ++ rlit "management",
   rlit "risk" ++ [RAtom.ws] ++ rlit "management",
   rlit "quality" ++ [RAtom.ws] ++ rlit "assurance",
   rlit "compliance", rlit "regulatory", rlit "legal", rlit "ethics", rlit "diversity",
   rlit "inclusion", rlit "equity", rlit "belonging", rlit "accessibility",
   rlit "sustainability",
   rlit "corporate" ++ [RAtom.ws] ++ rlit "social" ++ [RAtom.ws] ++ rlit "responsibility"]

/-- The single-element soft-pattern list (job_scanner.py lines 61-63). -/
def soft_patterns : List (List (List RAtom)) :=
  [soft_pattern]

/-- Result record of `extract_skills_using_regex`: the `tech_skills` and
`soft_skills` Python sets, in the ordered-set model. -/
structure RegexSkills : Type where
  tech_skills : List String
  soft_skills : List String
deriving DecidableEq

/-- Embedding of `extract_skills_using_regex` (job_scanner.py lines 44-75):
find all pattern matches in the text and collect each match lowercased into the
category's set. -/
def extract_skills_using_regex (text : String) : RegexSkills :=
  { tech_skills :=
      tech_patterns.foldl
        (fun acc p => (findall p text).foldl (fun a m => pyInsert a (pyLower m)) acc) [],
    soft_skills :=
      soft_patterns.foldl
        (fun acc p => (findall p text).foldl (fun a m => pyInsert a (pyLower m)) acc) [] }

/-- One pass of Python `str.title()`: uppercase a letter that follows a
non-letter, lowercase a letter that follows a letter, keep other characters;
the flag records whether the previous character was a (cased) letter. -/
def pyTitleAux : Bool → List Char → List Char
  | _, [] => []
  | prev, c :: cs =>
    if isAsciiAlphaChar c then
      (if prev then pyLowerChar c else pyUpperChar c) :: pyTitleAux true cs
    else c :: pyTitleAux false cs

/-- Python `str.title()` (ASCII model). -/
def pyTitle (s : String) : String :=
  ⟨pyTitleAux false s.data⟩

/-- Python `str.strip()`: drop leading and trailing whitespace. -/
def pyStrip (s : String) : String :=
  ⟨((s.data.dropWhile (fun c => isPyWsChar c)).reverse.dropWhile
      (fun c => isPyWsChar c)).reverse⟩

/-- Python substring test `needle in hay`. -/
def containsSub (hay needle : List Char) : Bool :=
  if needle.isPrefixOf hay then true
  else
    match hay with
    | [] => false
    | _ :: t => containsSub t needle

/-- Python `skill.replace('.', '').replace(' ', '').lower()` from step 4 of
`extract_skills_from_text` (job_scanner.py line 158). -/
def stripDotsSpacesLower (s : String) : String :=
  pyLower ⟨s.data.filter (fun c => decide (c ≠ '.' ∧ c ≠ ' '))⟩

/-- The in-code fallback skills database of `load_skills_database`
(job_scanner.py lines 32-39); the JSON file it prefers is deployment data. -/
def fallback_skill_database : List (String × List String) :=
  [("programming_languages", ["python", "javascript", "java"]),
   ("frameworks", ["react", "django", "flask"]),
   ("databases", ["mysql", "mongodb", "postgresql"]),
   ("cloud_platforms", ["aws", "azure", "google cloud"]),
   ("devops_tools", ["docker", "kubernetes", "terraform"]),
   ("ai_ml", ["tensorflow", "pytorch", "scikit-learn"])]

/-- The structured job input: its three text fields (string-valued only; a
non-string value behaves as absent) and its list-of-strings fields, as an
association list. -/
structure JobDict : Type where
  raw_text : Option String
  job_description : Option String
  description : Option String
  fields : List (String × List String)
deriving DecidableEq

/-- The `job_info` argument of `extract_skills_from_text`: a dict or a plain string. -/
inductive JobInfo : Type
  | dict : JobDict → JobInfo
  | str : String → JobInfo
deriving DecidableEq

/-- The fixed field list of `extract_skills_from_structured` (job_scanner.py
lines 83-86). -/
def structured_skill_fields : List String :=
  ["skills", "technologies", "technical_skills", "programming_languages",
   "languages", "frameworks", "tools", "certifications", "expertise"]

/-- Embedding of `extract_skills_from_structured` (job_scanner.py lines 77-100):
each string item of a skill-bearing list field goes to `tech_skills` when its
lowercase form contains any database skill as a substring, otherwise to
`soft_skills`; items are stripped. -/
def extract_skills_from_structured (db : List (String × List String)) (data : JobDict) :
    RegexSkills :=
  structured_skill_fields.foldl
    (fun acc field =>
      match alookup data.fields field with
      | none => acc
      | some items =>
        items.foldl
          (fun acc2 item =>
            let item_lower := pyLower item
            if db.any (fun cat => cat.2.any (fun skill => containsSub item_lower.data skill.data))
            then { acc2 with tech_skills := pyInsert acc2.tech_skills (pyStrip item) }
            else { acc2 with soft_skills := pyInsert acc2.soft_skills (pyStrip item) })
          acc)
    ⟨[], []⟩

/-- Categorized output of the extraction pipeline: the `skills`, `technologies`
and `soft_skills` lists the Python dict carries. -/
structure SkillLists : Type where
  skills : List String
  technologies : List String
  soft_skills : List String
deriving DecidableEq

/-- Text selection of `extract_skills_from_text` (job_scanner.py lines 121-130):
`raw_text`, else `job_description`, else `description`, else the plain string. -/
def ext_text (job_info : JobInfo) : String :=
  match job_info with
  | JobInfo.dict d =>
    let t0 := d.raw_text.getD ""
    if t0 = "" ∧ d.job_description.isSome then d.job_description.getD ""
    else if t0 = "" ∧ d.description.isSome then d.description.getD ""
    else t0
  | JobInfo.str s => s

/-- Step 1 of `extract_skills_from_text`: structured extraction when the input
is a dict (job_scanner.py lines 135-139). -/
def ext_structured (db : List (String × List String)) (job_info : JobInfo) : RegexSkills :=
  match job_info with
  | JobInfo.dict d => extract_skills_from_structured db d
  | JobInfo.str _ => ⟨[], []⟩

/-- Step 2 of `extract_skills_from_text`: regex extraction on the lowercased
text when structured extraction found nothing (job_scanner.py lines 141-145). -/
def ext_afterRegex (db : List (String × List String)) (job_info : JobInfo) : RegexSkills :=
  let structured := ext_structured db job_info
  if structured.tech_skills = [] ∧ structured.soft_skills = []
  then extract_skills_using_regex (pyLower (ext_text job_info))
  else structured

/-- Step 3 of `extract_skills_from_text`: database keyword matching when the
technical set is still empty (job_scanner.py lines 147-152). -/
def ext_tech2 (db : List (String × List String)) (job_info : JobInfo) : List String :=
  let afterRegex := ext_afterRegex db job_info
  if afterRegex.tech_skills = [] then
    db.foldl
      (fun acc cat =>
        cat.2.foldl
          (fun a skill =>
            if containsSub (pyLower (ext_text job_info)).data skill.data then pyInsert a skill
            else a)
          acc)
      afterRegex.tech_skills
  else afterRegex.tech_skills

/-- Step 4 of `extract_skills_from_text`: the dot/space-stripping variation
normalization (job_scanner.py lines 154-159). -/
def ext_processed (db : List (String × List String)) (job_info : JobInfo) : List String :=
  (ext_tech2 db job_info).foldl (fun acc skill => pyInsert acc (stripDotsSpacesLower skill)) []

/-- Embedding of `extract_skills_from_text` (job_scanner.py lines 102-174),
parameterized by the loaded skills database: structured extraction first, regex
on the lowercased text when that found nothing, database keyword matching when
technical skills are still empty, then the dot/space-stripping normalization and
title-cased display sets, with the technical set returned under both the
`skills` and `technologies` keys (job_scanner.py lines 161-174). -/
def extract_skills_from_text (db : List (String × List String)) (job_info : JobInfo) :
    SkillLists :=
  let tech_display :=
    (ext_processed db job_info).foldl (fun acc s => pyInsert acc (pyTitle s)) []
  let soft_display :=
    (ext_afterRegex db job_info).soft_skills.foldl (fun acc s => pyInsert acc (pyTitle s)) []
  ⟨tech_display, tech_display, soft_display⟩

/-- The parsed-CV record consumed by `job_match` (its `skills` list and `raw_text`). -/
structure ParsedData : Type where
  skills : Option (List String)
  raw_text : Option String
deriving DecidableEq

/-- The stored CV record consumed by `job_match` (cv_analyzer's `cv_storage` entry). -/
structure CvData : Type where
  extracted_skills : Option (List String)
  parsed_data : Option ParsedData
deriving DecidableEq

/-- Embedding of the CV-side skill assembly of `job_match` (job_scanner.py lines
444-474): strategy 1 copies the deduplicated lowercased `extracted_skills` into
both `skills` and `technologies`; strategy 2 (when strategy 1 yielded nothing)
collects parsed skills and regex hits from the raw text, deduplicates, and again
copies `skills` into `technologies`; a final cleanup strips every entry and
drops falsy ones. -/
def job_match_cv_skills (cv_data : CvData) : SkillLists :=
  let skills1 : List String :=
    match cv_data.extracted_skills with
    | some l => pydedup ((l.filter (fun s => s ≠ "")).map pyLower)
    | none => []
  let afterStrategy2 : List String × List String × List String :=
    match cv_data.parsed_data with
    | some pd =>
      if skills1 = [] then
        let fromParsed := ((pd.skills.getD []).filter (fun s => s ≠ "")).map pyLower
        let fromRegex : List String × List String :=
          match pd.raw_text with
          | some rt =>
            let ex := extract_skills_using_regex rt
            (ex.tech_skills.map pyLower, ex.soft_skills.map pyLower)
          | none => ([], [])
        let sk := pydedup (skills1 ++ fromParsed ++ fromRegex.1)
        (sk, sk, fromRegex.2)
      else (skills1, skills1, [])
    | none => (skills1, skills1, [])
  let cleanup : List String → List String :=
    fun l => (l.filter (fun s => decide (s ≠ "") && decide (pyStrip s ≠ ""))).map pyStrip
  ⟨cleanup afterStrategy2.1, cleanup afterStrategy2.2.1, cleanup afterStrategy2.2.2⟩

theorem char_eq_of_toNat_eq {a b : Char} (h : a.toNat = b.toNat) : a = b := by
  apply Char.ext
  exact UInt32.ext h

theorem char_ne_of_toNat_ne {a b : Char} (h : a.toNat ≠ b.toNat) : a ≠ b :=
  fun he => h (congrArg Char.toNat he)

theorem pyUpperChar_toNat_of_lower {c : Char} (h : 97 ≤ c.toNat ∧ c.toNat ≤ 122) :
    (pyUpperChar c).toNat = c.toNat - 32 := by
  simp only [pyUpperChar, h, and_self, ite_true]
  exact char_toNat_ofNat_small (by omega)

theorem pyUpperChar_eq_self {c : Char} (h : ¬ (97 ≤ c.toNat ∧ c.toNat ≤ 122)) :
    pyUpperChar c = c := by
  simp only [pyUpperChar, h, ite_false]

theorem isAsciiAlphaChar_iff (c : Char) :
    isAsciiAlphaChar c = true ↔
      ((65 ≤ c.toNat ∧ c.toNat ≤ 90) ∨ (97 ≤ c.toNat ∧ c.toNat ≤ 122)) := by
  simp [isAsciiAlphaChar, Nat.ble_eq]

theorem isAsciiAlphaChar_pyLowerChar (c : Char) :
    isAsciiAlphaChar (pyLowerChar c) = isAsciiAlphaChar c := by
  by_cases h : 65 ≤ c.toNat ∧ c.toNat ≤ 90
  · have h2 := pyLowerChar_toNat_of_upper h
    have ha : isAsciiAlphaChar (pyLowerChar c) = true := by rw [isAsciiAlphaChar_iff, h2]; omega
    have hb : isAsciiAlphaChar c = true := by rw [isAsciiAlphaChar_iff]; omega
    rw [ha, hb]
  · rw [pyLowerChar_eq_self h]

theorem isAsciiAlphaChar_pyUpperChar (c : Char) :
    isAsciiAlphaChar (pyUpperChar c) = isAsciiAlphaChar c := by
  by_cases h : 97 ≤ c.toNat ∧ c.toNat ≤ 122
  · have h2 := pyUpperChar_toNat_of_lower h
    have ha : isAsciiAlphaChar (pyUpperChar c) = true := by rw [isAsciiAlphaChar_iff, h2]; omega
    have hb : isAsciiAlphaChar c = true := by rw [isAsciiAlphaChar_iff]; omega
    rw [ha, hb]
  · rw [pyUpperChar_eq_self h]

theorem pyUpperChar_idem (c : Char) : pyUpperChar (pyUpperChar c) = pyUpperChar c := by
  by_cases h : 97 ≤ c.toNat ∧ c.toNat ≤ 122
  · have h2 := pyUpperChar_toNat_of_lower h
    exact pyUpperChar_eq_self (by omega)
  · rw [pyUpperChar_eq_self h, pyUpperChar_eq_self h]

theorem pyUpperChar_pyLowerChar (c : Char) : pyUpperChar (pyLowerChar c) = pyUpperChar c := by
  by_cases h : 65 ≤ c.toNat ∧ c.toNat ≤ 90
  · have h2 := pyLowerChar_toNat_of_upper h
    apply char_eq_of_toNat_eq
    rw [pyUpperChar_toNat_of_lower (by omega), h2, pyUpperChar_eq_self (by omega)]
    omega
  · rw [pyLowerChar_eq_self h]

theorem pyLowerChar_pyUpperChar (c : Char) : pyLowerChar (pyUpperChar c) = pyLowerChar c := by
  by_cases h : 97 ≤ c.toNat ∧ c.toNat ≤ 122
  · have h2 := pyUpperChar_toNat_of_lower h
    apply char_eq_of_toNat_eq
    rw [pyLowerChar_toNat_of_upper (by omega), h2, pyLowerChar_eq_self (by omega)]
    omega
  · rw [pyUpperChar_eq_self h]

theorem pyLowerChar_eq_self_of_not_alpha {c : Char} (h : isAsciiAlphaChar c = false) :
    pyLowerChar c = c := by
  apply pyLowerChar_eq_self
  intro hc
  have : isAsciiAlphaChar c = true := by rw [isAsciiAlphaChar_iff]; omega
  rw [h] at this
  exact Bool.false_ne_true this

theorem pyTitleAux_lower_fixpoint (cs : List Char) :
    ∀ b, pyTitleAux b ((pyTitleAux b cs).map pyLowerChar) = pyTitleAux b cs := by
  induction cs with
  | nil => intro b; rfl
  | cons c cs ih =>
    intro b
    by_cases hc : isAsciiAlphaChar c = true
    · cases b with
      | true =>
        have h1 : isAsciiAlphaChar (pyLowerChar c) = true := by
          rw [isAsciiAlphaChar_pyLowerChar]
          exact hc
        simp [pyTitleAux, hc, h1, pyLowerChar_idem, ih true]
      | false =>
        have h1 : isAsciiAlphaChar (pyUpperChar c) = true := by
          rw [isAsciiAlphaChar_pyUpperChar]
          exact hc
        have h2 : isAsciiAlphaChar (pyLowerChar (pyUpperChar c)) = true := by
          rw [isAsciiAlphaChar_pyLowerChar]
          exact h1
        have hcomp : pyUpperChar (pyLowerChar (pyUpperChar c)) = pyUpperChar c := by
          rw [pyUpperChar_pyLowerChar, pyUpperChar_idem]
        simp [pyTitleAux, hc, h2, hcomp, ih true]
    · have hc2 : isAsciiAlphaChar c = false := by simpa using hc
      simp [pyTitleAux, hc2, pyLowerChar_eq_self_of_not_alpha hc2, ih false]

theorem pyTitle_lower_fixpoint (s : String) : pyTitle (pyLower (pyTitle s)) = pyTitle s :=
  congrArg String.mk (pyTitleAux_lower_fixpoint s.data false)

theorem pyLowerChar_not_dot_space {c : Char} (h : c ≠ '.' ∧ c ≠ ' ') :
    pyLowerChar c ≠ '.' ∧ pyLowerChar c ≠ ' ' := by
  by_cases hr : 65 ≤ c.toNat ∧ c.toNat ≤ 90
  · have h2 := pyLowerChar_toNat_of_upper hr
    have hd : ('.' : Char).toNat = 46 := rfl
    have hs : (' ' : Char).toNat = 32 := rfl
    exact ⟨char_ne_of_toNat_ne (by rw [h2, hd]; omega),
      char_ne_of_toNat_ne (by rw [h2, hs]; omega)⟩
  · rw [pyLowerChar_eq_self hr]
    exact h

theorem pyUpperChar_not_dot_space {c : Char} (h : c ≠ '.' ∧ c ≠ ' ') :
    pyUpperChar c ≠ '.' ∧ pyUpperChar c ≠ ' ' := by
  by_cases hr : 97 ≤ c.toNat ∧ c.toNat ≤ 122
  · have h2 := pyUpperChar_toNat_of_lower hr
    have hd : ('.' : Char).toNat = 46 := rfl
    have hs : (' ' : Char).toNat = 32 := rfl
    exact ⟨char_ne_of_toNat_ne (by rw [h2, hd]; omega),
      char_ne_of_toNat_ne (by rw [h2, hs]; omega)⟩
  · rw [pyUpperChar_eq_self hr]
    exact h

theorem pyTitleAux_not_dot_space (cs : List Char) :
    ∀ b, (∀ c ∈ cs, c ≠ '.' ∧ c ≠ ' ') →
    ∀ c ∈ pyTitleAux b cs, c ≠ '.' ∧ c ≠ ' ' := by
  induction cs with
  | nil => intro b _ c hc; simp [pyTitleAux] at hc
  | cons a cs ih =>
    intro b h c hc
    have ha := h a (by simp)
    by_cases halpha : isAsciiAlphaChar a = true
    · simp only [pyTitleAux, halpha, if_true, List.mem_cons] at hc
      rcases hc with hc | hc
      · subst hc
        by_cases hb : b
        · simp only [hb, if_true]
          exact pyLowerChar_not_dot_space ha
        · simp only [hb, if_false]
          exact pyUpperChar_not_dot_space ha
      · exact ih true (fun d hd => h d (by simp [hd])) c hc
    · have halpha2 : isAsciiAlphaChar a = false := by simpa using halpha
      simp only [pyTitleAux, halpha2, Bool.false_eq_true, if_false, List.mem_cons] at hc
      rcases hc with hc | hc
      · subst hc; exact ha
      · exact ih false (fun d hd => h d (by simp [hd])) c hc

theorem pyInsert_nodup {acc : List String} {x : String} (h : acc.Nodup) :
    (pyInsert acc x).Nodup := by
  unfold pyInsert
  split
  · exact h
  · rename_i hx
    exact List.Nodup.append h (by simp) (by simpa using hx)

theorem mem_pyInsert {acc : List String} {x y : String} (h : x ∈ pyInsert acc y) :
    x ∈ acc ∨ x = y := by
  unfold pyInsert at h
  split at h
  · exact Or.inl h
  · rcases List.mem_append.mp h with h1 | h1
    · exact Or.inl h1
    · exact Or.inr (by simpa using h1)

theorem foldl_pyInsert_map_nodup (f : String → String) (l : List String) :
    ∀ acc : List String, acc.Nodup → (l.foldl (fun a s => pyInsert a (f s)) acc).Nodup := by
  induction l with
  | nil => intro acc h; exact h
  | cons a l ih => intro acc h; exact ih _ (pyInsert_nodup h)

theorem foldl_pyInsert_map_mem (f : String → String) (l : List String) :
    ∀ acc x, x ∈ l.foldl (fun a s => pyInsert a (f s)) acc → x ∈ acc ∨ ∃ s ∈ l, x = f s := by
  induction l with
  | nil => intro acc x h; exact Or.inl h
  | cons a l ih =>
    intro acc x h
    rcases ih _ x h with h1 | ⟨s, hs, rfl⟩
    · rcases mem_pyInsert h1 with h2 | h2
      · exact Or.inl h2
      · exact Or.inr ⟨a, by simp, h2⟩
    · exact Or.inr ⟨s, by simp [hs], rfl⟩

theorem stripDotsSpacesLower_chars (q : String) :
    ∀ c ∈ (stripDotsSpacesLower q).data, c ≠ '.' ∧ c ≠ ' ' := by
  intro c hc
  have : (stripDotsSpacesLower q).data =
      (q.data.filter (fun c => decide (c ≠ '.' ∧ c ≠ ' '))).map pyLowerChar := rfl
  rw [this] at hc
  rcases List.mem_map.mp hc with ⟨d, hd, rfl⟩
  have hpred := List.of_mem_filter hd
  exact pyLowerChar_not_dot_space (by simpa using hpred)

/-- The SkillSet invariant exactly as the spec's claim states it: every member
of every category is lowercase, whitespace-collapsed (so fixed by
re-normalization), non-empty, and unique within its category. -/
def spec_skillset_invariant (r : SkillLists) : Prop :=
  (∀ s ∈ r.skills, s ≠ "" ∧ pyLower s = s ∧ normWS s = s) ∧
  (∀ s ∈ r.technologies, s ≠ "" ∧ pyLower s = s ∧ normWS s = s) ∧
  (∀ s ∈ r.soft_skills, s ≠ "" ∧ pyLower s = s ∧ normWS s = s) ∧
  r.skills.Nodup ∧ r.technologies.Nodup ∧ r.soft_skills.Nodup

instance spec_skillset_invariant_decidable (r : SkillLists) :
    Decidable (spec_skillset_invariant r) := by
  unfold spec_skillset_invariant
  exact inferInstance

/-- Counterexample to C5: on the structured input whose `skills` field is
`["", "x  y", "python"]`, the pipeline returns the title-cased member `Python`
(not lowercase), the empty soft-skill member `""`, and the non-collapsed member
`X  Y`, so the claimed invariant fails. -/
theorem C5_counterexample_title_case :
    ¬ spec_skillset_invariant
      (extract_skills_from_text fallback_skill_database
        (JobInfo.dict
          { raw_text := none, job_description := none, description := none,
            fields := [("skills", ["", "x  y", "python"])] })) := by
  decide

/-- C5 as amended: every category list the pipeline returns is duplicate-free;
skills and technologies members contain no dot or space characters (whitespace
other than the space character can survive from structured input); and every
member of every category is in Python title case (fixed by `title ∘ lower`)
rather than lowercase. Empty members are possible in `soft_skills`. -/
theorem C5_amended_display_invariant (db : List (String × List String)) (ji : JobInfo) :
    ((extract_skills_from_text db ji).skills.Nodup ∧
      (extract_skills_from_text db ji).technologies.Nodup ∧
      (extract_skills_from_text db ji).soft_skills.Nodup) ∧
    (∀ s ∈ (extract_skills_from_text db ji).skills,
      pyTitle (pyLower s) = s ∧ ∀ c ∈ s.data, c ≠ '.' ∧ c ≠ ' ') ∧
    (∀ s ∈ (extract_skills_from_text db ji).technologies,
      pyTitle (pyLower s) = s ∧ ∀ c ∈ s.data, c ≠ '.' ∧ c ≠ ' ') ∧
    (∀ s ∈ (extract_skills_from_text db ji).soft_skills, pyTitle (pyLower s) = s) := by
  have hsk : (extract_skills_from_text db ji).skills =
      (ext_processed db ji).foldl (fun acc s => pyInsert acc (pyTitle s)) [] := rfl
  have htech : (extract_skills_from_text db ji).technologies =
      (ext_processed db ji).foldl (fun acc s => pyInsert acc (pyTitle s)) [] := rfl
  have hsoft : (extract_skills_from_text db ji).soft_skills =
      (ext_afterRegex db ji).soft_skills.foldl (fun acc s => pyInsert acc (pyTitle s)) [] := rfl
  have hmem : ∀ s ∈ (ext_processed db ji).foldl (fun acc s => pyInsert acc (pyTitle s)) [],
      pyTitle (pyLower s) = s ∧ ∀ c ∈ s.data, c ≠ '.' ∧ c ≠ ' ' := by
    intro s hs
    rcases foldl_pyInsert_map_mem _ _ [] s hs with h | ⟨p, hp, rfl⟩
    · simp at h
    · refine ⟨pyTitle_lower_fixpoint p, ?_⟩
      rcases foldl_pyInsert_map_mem _ _ [] p hp with h | ⟨q, _, rfl⟩
      · simp at h
      · exact pyTitleAux_not_dot_space _ false (stripDotsSpacesLower_chars q)
  refine ⟨⟨?_, ?_, ?_⟩, ?_, ?_, ?_⟩
  · rw [hsk]
    exact foldl_pyInsert_map_nodup _ _ [] (by simp)
  · rw [htech]
    exact foldl_pyInsert_map_nodup _ _ [] (by simp)
  · rw [hsoft]
    exact foldl_pyInsert_map_nodup _ _ [] (by simp)
  · rw [hsk]
    exact hmem
  · rw [htech]
    exact hmem
  · rw [hsoft]
    intro s hs
    rcases foldl_pyInsert_map_mem _ _ [] s hs with h | ⟨p, _, rfl⟩
    · simp at h
    · exact pyTitle_lower_fixpoint p

/-- Witness for C5's amendment at a concrete input: the member `Python` is
title-cased, dot-free and space-free. -/
theorem C5_amended_display_invariant_witness :
    pyTitle (pyLower "Python") = "Python" ∧ ∀ c ∈ "Python".data, c ≠ '.' ∧ c ≠ ' ' :=
  (C5_amended_display_invariant fallback_skill_database
    (JobInfo.dict
      { raw_text := none, job_description := none, description := none,
        fields := [("skills", ["", "x  y", "python"])] })).2.1 "Python" (by decide)

/-- C4 evaluated at the spec's failing input: on "Experienced with C++ and
Node.js" the extractor returns only `Js` (the bare `js` token of `node.js`).
`c++` is never matched because the pattern's trailing `\b` cannot hold between
`+` and a following space or end, and no pattern matches `node.js` at all, so
neither canonical skill appears, contrary to the claim. -/
theorem C4_cpp_nodejs_failing_input :
    extract_skills_from_text fallback_skill_database
      (JobInfo.dict
        { raw_text := some "Experienced with C++ and Node.js", job_description := none,
          description := none, fields := [] }) =
      { skills := ["Js"], technologies := ["Js"], soft_skills := [] } ∧
    (extract_skills_using_regex
      (pyLower "Experienced with C++ and Node.js")).tech_skills = ["js"] := by
  constructor
  · decide
  · decide

/-- C10: the extraction pipeline returns identical `skills` and `technologies`
lists; the CV side of `job_match` likewise copies `skills` into `technologies`;
consequently, for a job mapping in that duplicated shape, each technical skill
counts twice in the pooled scoring denominator. -/
theorem C10_skills_duplicated_into_technologies (db : List (String × List String))
    (ji : JobInfo) (cv : CvData) (L S : List String) :
    (extract_skills_from_text db ji).skills = (extract_skills_from_text db ji).technologies ∧
    (job_match_cv_skills cv).skills = (job_match_cv_skills cv).technologies ∧
    total_required_of [("skills", L), ("technologies", L), ("soft_skills", S)] =
      2 * (normalize_skills L).length + (normalize_skills S).length := by
  refine ⟨rfl, ?_, ?_⟩
  · rcases cv with ⟨es, pd⟩
    cases pd with
    | none => rfl
    | some p =>
      unfold job_match_cv_skills
      by_cases h : (match es with
        | some l => pydedup ((l.filter (fun s => s ≠ "")).map pyLower)
        | none => ([] : List String)) = []
      · simp only [h]
        rfl
      · simp only [h]
        rfl
  · simp only [total_required_of, List.map_cons, List.map_nil, List.sum_cons, List.sum_nil]
    omega

/-- One item of a suggestion card: display text and action tag. -/
structure SuggestionItem : Type where
  text : String
  action : String
deriving DecidableEq

/-- A suggestion card as `generate_improvement_suggestions` builds it
(priority is the numeric code: 1 high, 2 medium, 3 low). -/
structure SuggestionCard : Type where
  id : String
  title : String
  description : String
  priority : Nat
  category : String
  icon : String
  items : List SuggestionItem
deriving DecidableEq

/-- The per-category missing-skills list of `generate_improvement_suggestions`
(job_scanner.py lines 272-276): for each of the three categories, the lowercased
job skills absent from the candidate's same category, concatenated. -/
def missing_skills_list (job_skills cv_skills : List (String × List String)) : List String :=
  ["skills", "technologies", "soft_skills"].foldl
    (fun acc cat =>
      acc ++ (pydedup (((alookup job_skills cat).getD []).map pyLower)).filter
        (fun s => decide (s ∉ ((alookup cv_skills cat).getD []).map pyLower)))
    []

/-- The skills-to-highlight list (job_scanner.py lines 289-293): candidate
`skills`/`technologies` not required by the job. -/
def strong_skills_list (job_skills cv_skills : List (String × List String)) : List String :=
  ["skills", "technologies"].foldl
    (fun acc cat =>
      acc ++ (pydedup (((alookup cv_skills cat).getD []).map pyLower)).filter
        (fun s => decide (s ∉ ((alookup job_skills cat).getD []).map pyLower)))
    []

/-- The matched-skills list (job_scanner.py lines 306-310): the per-category
intersection, concatenated. -/
def matched_skills_list (job_skills cv_skills : List (String × List String)) : List String :=
  ["skills", "technologies", "soft_skills"].foldl
    (fun acc cat =>
      acc ++ (pydedup (((alookup job_skills cat).getD []).map pyLower)).filter
        (fun s => decide (s ∈ ((alookup cv_skills cat).getD []).map pyLower)))
    []

/-- The fixed, always-appended low-priority card (job_scanner.py lines 340-355). -/
def profile_enhancement_card : SuggestionCard :=
  { id := "profile_enhancement", title := "Enhance Your Profile",
    description := "Consider these suggestions to improve your profile's impact",
    priority := 3, category := "suggestion", icon := "star",
    items :=
      [⟨"Add project examples", "suggest"⟩,
       ⟨"Include specific achievements", "suggest"⟩,
       ⟨"Highlight relevant experience", "suggest"⟩,
       ⟨"Add metrics to quantify impact", "suggest"⟩,
       ⟨"Include relevant certifications", "suggest"⟩] }

/-- The missing-skills card (job_scanner.py lines 278-287). -/
def missing_skills_card (missing : List String) : SuggestionCard :=
  { id := "missing_skills", title := "Missing Key Skills",
    description := "These skills are required for the job but not found in your CV",
    priority := 1, category := "skills", icon := "code",
    items := (missing.take 5).map (fun s => ⟨s, "add"⟩) }

/-- The skills-to-highlight card (job_scanner.py lines 295-304). -/
def skills_to_highlight_card (strong : List String) : SuggestionCard :=
  { id := "skills_to_highlight", title := "Skills to Highlight",
    description := "These valuable skills in your CV aren't mentioned in the job description",
    priority := 1, category := "highlight", icon := "star",
    items := (strong.take 5).map (fun s => ⟨s, "highlight"⟩) }

/-- The matching-skills card (job_scanner.py lines 312-321). -/
def matching_skills_card (matched : List String) : SuggestionCard :=
  { id := "matching_skills", title := "Matching Skills",
    description := "These skills from the job description match your CV",
    priority := 2, category := "matching", icon := "group",
    items := (matched.take 5).map (fun s => ⟨s, "highlight"⟩) }

/-- The skills-to-learn card (job_scanner.py lines 323-338): the first two
missing skills reframed as learning suggestions. -/
def skills_to_learn_card (related : List String) : SuggestionCard :=
  { id := "skills_to_learn", title := "Skills to Learn",
    description := "Consider developing these skills to better match job requirements",
    priority := 2, category := "learning", icon := "format_align_left",
    items := related.map (fun s => ⟨"Learn " ++ s, "suggest"⟩) }

/-- Stable insertion of a card into a priority-sorted list: the new card goes
after every card of equal or lower numeric priority, preserving insertion order
among ties the way Python's stable `list.sort` does. -/
def insertByPriority (c : SuggestionCard) : List SuggestionCard → List SuggestionCard
  | [] => [c]
  | d :: ds => if d.priority ≤ c.priority then d :: insertByPriority c ds else c :: d :: ds

/-- Stable sort by ascending priority (Python `list.sort(key=priority)`). -/
def sortByPriority (l : List SuggestionCard) : List SuggestionCard :=
  l.foldl (fun acc c => insertByPriority c acc) []

/-- Embedding of `generate_improvement_suggestions` (job_scanner.py lines
254-361); `language` is accepted and unused, as in the source. -/
def generate_improvement_suggestions (job_skills cv_skills : List (String × List String))
    (language : String) : List SuggestionCard :=
  let missing := missing_skills_list job_skills cv_skills
  let strong := strong_skills_list job_skills cv_skills
  let matched := matched_skills_list job_skills cv_skills
  let built :=
    (if missing = [] then [] else [missing_skills_card missing]) ++
    (if strong = [] then [] else [skills_to_highlight_card strong]) ++
    (if matched = [] then [] else [matching_skills_card matched]) ++
    (if missing = [] then [] else [skills_to_learn_card (missing.take 2)]) ++
    [profile_enhancement_card]
  (sortByPriority built).take 5

/-- C7: for every pair of skill mappings the suggestion list is non-empty, has
at most 5 cards, is sorted by ascending numeric priority (high=1, medium=2,
low=3), always contains the fixed low-priority profile-enhancement card, and its
exact id sequence shows insertion order preserved among equal priorities. -/
theorem C7_suggestions_bounded_sorted (job_skills cv_skills : List (String × List String))
    (lang : String) :
    generate_improvement_suggestions job_skills cv_skills lang ≠ [] ∧
    (generate_improvement_suggestions job_skills cv_skills lang).length ≤ 5 ∧
    (generate_improvement_suggestions job_skills cv_skills lang).Pairwise
      (fun a b => a.priority ≤ b.priority) ∧
    profile_enhancement_card ∈ generate_improvement_suggestions job_skills cv_skills lang ∧
    (generate_improvement_suggestions job_skills cv_skills lang).map (fun c => c.id) =
      (if missing_skills_list job_skills cv_skills = [] then [] else ["missing_skills"]) ++
      (if strong_skills_list job_skills cv_skills = [] then [] else ["skills_to_highlight"]) ++
      (if matched_skills_list job_skills cv_skills = [] then [] else ["matching_skills"]) ++
      (if missing_skills_list job_skills cv_skills = [] then [] else ["skills_to_learn"]) ++
      ["profile_enhancement"] := by
  unfold generate_improvement_suggestions
  by_cases h1 : missing_skills_list job_skills cv_skills = [] <;>
    by_cases h2 : strong_skills_list job_skills cv_skills = [] <;>
      by_cases h3 : matched_skills_list job_skills cv_skills = [] <;>
        simp [h1, h2, h3, sortByPriority, insertByPriority, missing_skills_card,
          skills_to_highlight_card, matching_skills_card, skills_to_learn_card,
          profile_enhancement_card]

theorem pyLower_idem (s : String) : pyLower (pyLower s) = pyLower s := by
  apply congrArg String.mk
  show (s.data.map pyLowerChar).map pyLowerChar = s.data.map pyLowerChar
  rw [List.map_map]
  exact List.map_congr_left (fun c _ => pyLowerChar_idem c)

theorem mem_pydedup_aux (l : List String) :
    ∀ acc x, x ∈ l.foldl pyInsert acc → x ∈ acc ∨ x ∈ l := by
  induction l with
  | nil => intro acc x h; exact Or.inl h
  | cons a l ih =>
    intro acc x h
    rcases ih _ x h with h1 | h1
    · rcases mem_pyInsert h1 with h2 | h2
      · exact Or.inl h2
      · exact Or.inr (by simp [h2])
    · exact Or.inr (by simp [h1])

theorem mem_pydedup {l : List String} {x : String} (h : x ∈ pydedup l) : x ∈ l := by
  rcases mem_pydedup_aux l [] x h with h1 | h1
  · simp at h1
  · exact h1

theorem mem_lower_diff_lower {jl : List String} {s : String} {p : String → Bool}
    (h : s ∈ (pydedup (jl.map pyLower)).filter p) : pyLower s = s := by
  have h1 : s ∈ pydedup (jl.map pyLower) := List.mem_of_mem_filter h
  rcases List.mem_map.mp (mem_pydedup h1) with ⟨y, _, rfl⟩
  exact pyLower_idem y

theorem missing_skills_list_lower (job_skills cv_skills : List (String × List String)) :
    ∀ s ∈ missing_skills_list job_skills cv_skills, pyLower s = s := by
  intro s hs
  unfold missing_skills_list at hs
  simp only [List.foldl_cons, List.foldl_nil, List.nil_append] at hs
  rcases List.mem_append.mp hs with hs1 | hs2
  · rcases List.mem_append.mp hs1 with hs3 | hs4
    · exact mem_lower_diff_lower hs3
    · exact mem_lower_diff_lower hs4
  · exact mem_lower_diff_lower hs2

/-- The missing-skills set exactly as the spec's claim words it: the union of
job skills across all categories minus the union of candidate skills across all
categories (lowercased for comparison). -/
def spec_missing_skills_union (job_skills cv_skills : List (String × List String)) :
    List String :=
  (pydedup ((job_skills.map (fun p => p.2)).flatten.map pyLower)).filter
    (fun s => decide (s ∉ (cv_skills.map (fun p => p.2)).flatten.map pyLower))

/-- Counterexample to C3: when the job requires `python` under `skills` and the
candidate lists `python` under `technologies`, the spec's union-minus-union set
is empty (so the claim says the card is omitted), yet the code's per-category
difference produces the card. -/
theorem C3_counterexample_per_category :
    spec_missing_skills_union [("skills", ["python"])] [("technologies", ["python"])] = [] ∧
    (generate_improvement_suggestions [("skills", ["python"])] [("technologies", ["python"])]
        "en").filter (fun c => decide (c.id = "missing_skills")) ≠ [] := by
  constructor
  · decide
  · decide

theorem generate_ids_map (job_skills cv_skills : List (String × List String))
    (lang : String) :
    (generate_improvement_suggestions job_skills cv_skills lang).map (fun c => c.id) =
      (if missing_skills_list job_skills cv_skills = [] then [] else ["missing_skills"]) ++
      (if strong_skills_list job_skills cv_skills = [] then [] else ["skills_to_highlight"]) ++
      (if matched_skills_list job_skills cv_skills = [] then [] else ["matching_skills"]) ++
      (if missing_skills_list job_skills cv_skills = [] then [] else ["skills_to_learn"]) ++
      ["profile_enhancement"] := by
  unfold generate_improvement_suggestions
  by_cases h1 : missing_skills_list job_skills cv_skills = [] <;>
    by_cases h2 : strong_skills_list job_skills cv_skills = [] <;>
      by_cases h3 : matched_skills_list job_skills cv_skills = [] <;>
        simp [h1, h2, h3, sortByPriority, insertByPriority, missing_skills_card,
          skills_to_highlight_card, matching_skills_card, skills_to_learn_card,
          profile_enhancement_card]

/-- C3 as amended: the missing-skills card is driven by the per-category
differences (lowercased job minus candidate within each of skills, technologies,
soft_skills, concatenated), not a union across categories; it is omitted exactly
when that concatenation is empty, and otherwise carries its first 5 entries
(lowercase, not title-cased, with action `add`). -/
theorem C3_amended_missing_card (job_skills cv_skills : List (String × List String))
    (lang : String) :
    (missing_skills_list job_skills cv_skills = [] →
      ∀ c ∈ generate_improvement_suggestions job_skills cv_skills lang,
        c.id ≠ "missing_skills") ∧
    (missing_skills_list job_skills cv_skills ≠ [] →
      (generate_improvement_suggestions job_skills cv_skills lang).filter
          (fun c => decide (c.id = "missing_skills")) =
        [missing_skills_card (missing_skills_list job_skills cv_skills)]) ∧
    (missing_skills_card (missing_skills_list job_skills cv_skills)).items =
      ((missing_skills_list job_skills cv_skills).take 5).map (fun s => ⟨s, "add"⟩) ∧
    (missing_skills_card (missing_skills_list job_skills cv_skills)).items.length ≤ 5 ∧
    (∀ s ∈ missing_skills_list job_skills cv_skills, pyLower s = s) := by
  refine ⟨?_, ?_, rfl, ?_, missing_skills_list_lower job_skills cv_skills⟩
  · intro h1 c hc he
    have hid : "missing_skills" ∈
        (generate_improvement_suggestions job_skills cv_skills lang).map (fun c => c.id) := by
      rw [← he]
      exact List.mem_map_of_mem _ hc
    rw [generate_ids_map] at hid
    by_cases h2 : strong_skills_list job_skills cv_skills = [] <;>
      by_cases h3 : matched_skills_list job_skills cv_skills = [] <;>
        simp [h1, h2, h3] at hid
  · intro h1
    unfold generate_improvement_suggestions
    by_cases h2 : strong_skills_list job_skills cv_skills = [] <;>
      by_cases h3 : matched_skills_list job_skills cv_skills = [] <;>
        simp [h1, h2, h3, sortByPriority, insertByPriority, missing_skills_card,
          skills_to_highlight_card, matching_skills_card, skills_to_learn_card,
          profile_enhancement_card]
  · simp [missing_skills_card]

/-- Witness for C3's amendment: with job skills `["python"]` and an empty
candidate mapping, the per-category difference is non-empty and the returned
missing-skills card is exactly the one built from it. -/
theorem C3_amended_missing_card_witness :
    missing_skills_list [("skills", ["python"])] [] ≠ [] ∧
    (generate_improvement_suggestions [("skills", ["python"])] [] "en").filter
        (fun c => decide (c.id = "missing_skills")) =
      [missing_skills_card (missing_skills_list [("skills", ["python"])] [])] :=
  ⟨by decide, (C3_amended_missing_card [("skills", ["python"])] [] "en").2.1 (by decide)⟩
